import Mathlib

/-!
# Verification of the ArgStates clang plugin (Kafva/clang-suffix)

A shallow embedding of the analysis implemented in `src/lib/ArgStates.cpp`
(and declared in the project header): an AST-matcher based pass that, for a
target function symbol, reports literal and declaration-reference nodes
occurring beneath calls to that symbol, plus the plugin-argument parsing
logic, and a spec-modelled second pass (value-origin resolution) and
argument-state store whose implementations are declared in the header but
not present in the repository sources.

The clang AST and the AST-matcher library are external collaborators; they
are embedded here as a finite node tree and as predicates over a node
together with its ancestor chain, which is exactly the interface the source
uses (`hasAncestor`, `callee`, `to`, node-kind matchers).
-/

/-- The kind of declaration a `DeclRefExpr` resolves to.  In clang,
`VarDecl` and `FunctionDecl` are both subclasses of `DeclaratorDecl`,
while e.g. `EnumConstantDecl` is not. -/
inductive DeclKind where
  | varDecl
  | functionDecl
  | enumConstantDecl
deriving DecidableEq, Repr

/-- Embedding of the clang statement/expression nodes that the plugin
distinguishes.  An `intLit` carries both its source spelling (`text`, what
stands in the source buffer) and the parsed numeric value (`value`, what
`IntegerLiteral::getValue()` returns); likewise `charLit` carries the
spelling and the code point returned by `CharacterLiteral::getValue()`.
A `strLit` carries the cooked string contents that
`StringLiteral::getString()` returns.  A `call` node's first child is the
reference to the callee followed by the argument expressions, matching the
child order of `CallExpr`.  `binOp` and `other` cover the remaining
statement classes (arithmetic, member access, compound statements, ...). -/
inductive Node where
  | intLit (text : String) (value : Nat)
  | strLit (content : String)
  | charLit (text : String) (value : Nat)
  | declRef (name : String) (kind : DeclKind)
  | nullStmt
  | call (callee : Node) (args : List Node)
  | binOp (lhs rhs : Node)
  | other (cls : String) (children : List Node)

/-- `Stmt::children()`: the sub-statements of a node, in source order.
For a `CallExpr` the callee reference comes first, then the arguments. -/
def Node.children : Node → List Node
  | .call callee args => callee :: args
  | .binOp l r => [l, r]
  | .other _ cs => cs
  | _ => []

/-- The message printed for a childless node by the `switch` in
`ArgStatesMatcher::getChildren` (`src/lib/ArgStates.cpp:51`): `NullStmt`,
`IntegerLiteral` and `DeclRefExpr` have dedicated cases, everything else
falls to the `default:` branch which dumps the node. -/
def leafMessage : Node → String
  | .nullStmt => "Null statement"
  | .intLit _ _ => "Int literal statement"
  | .declRef _ _ => "Ref statement "
  | _ => "<dumpColor>"

mutual

/-- Embedding of `ArgStatesMatcher::getChildren`
(`src/lib/ArgStates.cpp:40`): recursively enumerate the children of the
given statement; a node with no children prints one classification
message, a node with children only recurses.  The returned list is the
sequence of printed messages. -/
def getChildren : Node → List String
  | .call callee args => getChildrenList (callee :: args)
  | .binOp l r => getChildren l ++ getChildren r
  | .other cls [] => [leafMessage (.other cls [])]
  | .other _ (c :: cs) => getChildrenList (c :: cs)
  | .intLit t v => [leafMessage (.intLit t v)]
  | .strLit s => [leafMessage (.strLit s)]
  | .charLit t v => [leafMessage (.charLit t v)]
  | .declRef n k => [leafMessage (.declRef n k)]
  | .nullStmt => [leafMessage .nullStmt]

/-- The `for (auto child : stmt->children())` loop body of `getChildren`:
visit each child in order, concatenating the printed output. -/
def getChildrenList : List Node → List String
  | [] => []
  | c :: cs => getChildren c ++ getChildrenList cs

end

mutual

/-- Number of childless (leaf) nodes of a statement tree: exactly the
nodes for which `getChildren` prints a message. -/
def leafCount : Node → Nat
  | .call callee args => leafCountList (callee :: args)
  | .binOp l r => leafCount l + leafCount r
  | .other _ [] => 1
  | .other _ (c :: cs) => leafCountList (c :: cs)
  | _ => 1

/-- Sum of `leafCount` over a list of statements. -/
def leafCountList : List Node → Nat
  | [] => 0
  | c :: cs => leafCount c + leafCountList cs

end

/-- `getChildren` follows the structure of the source exactly: a node with
no children prints its own classification, a node with children only
recurses into them (in order). -/
theorem getChildren_children_eq (s : Node) :
    getChildren s =
      if s.children.isEmpty then [leafMessage s] else getChildrenList s.children := by
  cases s with
  | other cls cs => cases cs <;> simp [getChildren, Node.children, getChildrenList]
  | _ => simp [getChildren, Node.children, getChildrenList]

theorem getChildren_length_and_list :
    (∀ s : Node, (getChildren s).length = leafCount s) ∧
      (∀ l : List Node, (getChildrenList l).length = leafCountList l) := by
  refine getChildren.mutual_induct
    (fun s => (getChildren s).length = leafCount s)
    (fun l => (getChildrenList l).length = leafCountList l)
    ?_ ?_ ?_ ?_ ?_ ?_ ?_ ?_ ?_ ?_ ?_
  all_goals intros
  all_goals simp_all [getChildren, getChildrenList, leafCount, leafCountList]

/-- `DeclaratorDecl` test used by the `to(declaratorDecl())` matcher:
in clang both `VarDecl` and `FunctionDecl` derive from `DeclaratorDecl`;
`EnumConstantDecl` does not. -/
def isDeclaratorDecl : DeclKind → Bool
  | .varDecl => true
  | .functionDecl => true
  | .enumConstantDecl => false

/-- `callExpr(callee(functionDecl(hasName(name))))`: the node is a call
whose callee reference resolves to a function declaration named `name`. -/
def calleeIsTarget (name : String) : Node → Bool
  | .call (.declRef f .functionDecl) _ => f == name
  | _ => false

/-- `hasAncestor(callExpr(callee(functionDecl(hasName(name)))))`
(`src/lib/ArgStates.cpp:157`): some ancestor of the node (nearest first)
is a call to the target symbol. -/
def isArgumentOfCall (name : String) (ancestors : List Node) : Bool :=
  ancestors.any (calleeIsTarget name)

/-- The matcher bound to REF (`src/lib/ArgStates.cpp:162`):
`declRefExpr(to(declaratorDecl()), isArgumentOfCall)`. -/
def matchesRefMatcher (name : String) (n : Node) (ancestors : List Node) : Bool :=
  (match n with
   | .declRef _ k => isDeclaratorDecl k
   | _ => false) && isArgumentOfCall name ancestors

/-- The matcher bound to INT (`src/lib/ArgStates.cpp:165`):
`integerLiteral(isArgumentOfCall)`. -/
def matchesIntMatcher (name : String) (n : Node) (ancestors : List Node) : Bool :=
  (match n with
   | .intLit _ _ => true
   | _ => false) && isArgumentOfCall name ancestors

/-- The matcher bound to STR (`src/lib/ArgStates.cpp:166`):
`stringLiteral(isArgumentOfCall)`. -/
def matchesStrMatcher (name : String) (n : Node) (ancestors : List Node) : Bool :=
  (match n with
   | .strLit _ => true
   | _ => false) && isArgumentOfCall name ancestors

/-- The matcher bound to CHR (`src/lib/ArgStates.cpp:167`):
`characterLiteral(isArgumentOfCall)`. -/
def matchesChrMatcher (name : String) (n : Node) (ancestors : List Node) : Bool :=
  (match n with
   | .charLit _ _ => true
   | _ => false) && isArgumentOfCall name ancestors

/-- Message printed by `ArgStatesMatcher::run` for a REF binding
(`src/lib/ArgStates.cpp:94`): the referenced declaration's name
(locations are elided in this embedding). -/
def refMessage : Node → String
  | .declRef n _ => "REF> " ++ n
  | _ => "REF> "

/-- Message printed for an INT binding (`src/lib/ArgStates.cpp:102`):
`IntegerLiteral::getValue()` streamed to the output, i.e. the parsed
numeric value rendered in decimal — not the source spelling. -/
def intMessage : Node → String
  | .intLit _ v => "INT> " ++ toString v
  | _ => "INT> "

/-- Message printed for a STR binding (`src/lib/ArgStates.cpp:109`):
`StringLiteral::getString()`, the cooked string contents. -/
def strMessage : Node → String
  | .strLit s => "STR> " ++ s
  | _ => "STR> "

/-- Message printed for a CHR binding (`src/lib/ArgStates.cpp:114`):
`CharacterLiteral::getValue()`, the numeric code point. -/
def chrMessage : Node → String
  | .charLit _ v => "CHR> " ++ toString v
  | _ => "CHR> "

/-- All messages `ArgStatesMatcher::run` prints for one node of the
translation unit: one message per registered matcher that matches the
node, in registration order REF, INT, STR, CHR
(`src/lib/ArgStates.cpp:169`). -/
def nodeMessages (name : String) (n : Node) (ancestors : List Node) : List String :=
  (if matchesRefMatcher name n ancestors then [refMessage n] else []) ++
    (if matchesIntMatcher name n ancestors then [intMessage n] else []) ++
      (if matchesStrMatcher name n ancestors then [strMessage n] else []) ++
        (if matchesChrMatcher name n ancestors then [chrMessage n] else [])

mutual

/-- Depth-first pre-order enumeration of all nodes of a tree, each paired
with its chain of ancestors (nearest first).  This is the node stream the
`MatchFinder` tries every registered matcher against. -/
def visit : List Node → Node → List (Node × List Node)
  | anc, .call callee args =>
      (.call callee args, anc) :: visitList (.call callee args :: anc) (callee :: args)
  | anc, .binOp l r =>
      (.binOp l r, anc) :: (visit (.binOp l r :: anc) l ++ visit (.binOp l r :: anc) r)
  | anc, .other cls [] => [(.other cls [], anc)]
  | anc, .other cls (c :: cs) =>
      (.other cls (c :: cs), anc) :: visitList (.other cls (c :: cs) :: anc) (c :: cs)
  | anc, .intLit t v => [(.intLit t v, anc)]
  | anc, .strLit s => [(.strLit s, anc)]
  | anc, .charLit t v => [(.charLit t v, anc)]
  | anc, .declRef n k => [(.declRef n k, anc)]
  | anc, .nullStmt => [(.nullStmt, anc)]

/-- `visit` mapped over a list of sibling subtrees, in order. -/
def visitList : List Node → List Node → List (Node × List Node)
  | _, [] => []
  | anc, c :: cs => visit anc c ++ visitList anc cs

end

/-- All nodes of the translation unit, with ancestors. -/
def nodesWithAncestors (root : Node) : List (Node × List Node) :=
  visit [] root

/-- Concatenation of the `run` messages over a stream of nodes with
ancestors. -/
def messagesOf (name : String) (ps : List (Node × List Node)) : List String :=
  ps.foldr (fun p acc => nodeMessages name p.1 p.2 ++ acc) []

/-- Full output of one `ArgStates` pass over a translation unit `root`
with target symbol `name`: the concatenation of the messages of
`ArgStatesMatcher::run` over all matched nodes, in traversal order. -/
def runOutput (name : String) (root : Node) : List String :=
  messagesOf name (nodesWithAncestors root)

/-- A node matched by at least one of the four registered matchers. -/
def matchedAny (name : String) (n : Node) (ancestors : List Node) : Bool :=
  matchesRefMatcher name n ancestors || matchesIntMatcher name n ancestors ||
    matchesStrMatcher name n ancestors || matchesChrMatcher name n ancestors

/-- Number of nodes of the translation unit matched by some matcher. -/
def matchCount (name : String) (root : Node) : Nat :=
  (nodesWithAncestors root).countP (fun p => matchedAny name p.1 p.2)

/-- Syntactic argument count of a call expression. -/
def argCountOfCall : Node → Option Nat
  | .call _ args => some args.length
  | _ => none

/-- Value of one digit character in a given base (C literal digits,
upper- or lower-case hex letters). -/
def digitValue (base : Nat) (c : Char) : Option Nat :=
  let v :=
    if c.isDigit then some (c.toNat - 48)
    else if c.isLower then some (c.toNat - 87)
    else if c.isUpper then some (c.toNat - 55)
    else none
  match v with
  | some d => if d < base then some d else none
  | none => none

/-- Accumulate a digit string in a given base. -/
def decodeDigits (base : Nat) (cs : List Char) : Option Nat :=
  cs.foldl
    (fun acc c =>
      match acc, digitValue base c with
      | some n, some d => some (n * base + d)
      | _, _ => none)
    (if cs.isEmpty then none else some 0)

/-- Numeric value of a C integer-literal spelling (decimal or `0x`/`0X`
hexadecimal): the value clang stores in the `IntegerLiteral` node for that
source text.  Used to relate a literal's source spelling to the value
`getValue()` returns. -/
def decodeIntLiteral (s : String) : Option Nat :=
  match s.toList with
  | '0' :: 'x' :: rest => decodeDigits 16 rest
  | '0' :: 'X' :: rest => decodeDigits 16 rest
  | cs => decodeDigits 10 cs

/-- The files the plugin can open, as an association of file name to the
list of its lines; a name not in the association models a file that cannot
be opened (`file.is_open()` false). -/
abbrev NamesFileSystem := List (String × List String)

/-- Look a file up in the modelled file system. -/
def lookupFile : NamesFileSystem → String → Option (List String)
  | [], _ => none
  | e :: rest, f => if e.1 == f then some e.2 else lookupFile rest f

/-- Embedding of `ArgStatesAddPluginAction::readNamesFromFile`
(`src/lib/ArgStates.cpp:221`): if the file opens, push every line onto
`Names`; if it does not open, do nothing — silently, with no diagnostic. -/
def readNamesFromFile (fs : NamesFileSystem) (filename : String)
    (names : List String) : List String :=
  match lookupFile fs filename with
  | some ls => names ++ ls
  | none => names

/-- Embedding of `ArgStatesAddPluginAction::parseArg`
(`src/lib/ArgStates.cpp:234`): the flag at index `i` must be followed by a
further, nonempty argument; otherwise a diagnostic is reported and the
result is `false`. -/
def parseArg (args : List String) (i : Nat) : Bool :=
  if i + 1 ≥ args.length then false
  else if (args.getD (i + 1) "") == "" then false
  else true

/-- The argument loop of `ArgStatesAddPluginAction::ParseArgs`
(`src/lib/ArgStates.cpp:188`): scan the plugin arguments; on
`-names-file`, check the next argument with `parseArg` (returning failure
if the check fails) and read names from the named file; `args[++i]` makes
the loop continue after the file name.  `none` models `ParseArgs`
returning `false` (fatal), `some names` models returning `true` with the
accumulated `Names` vector. -/
def parseArgsLoop (fs : NamesFileSystem) (args : List String) :
    Nat → List String → Option (List String)
  | i, names =>
    if h : args.length ≤ i then some names
    else
      if args.getD i "" == "-names-file" then
        if parseArg args i then
          parseArgsLoop fs args (i + 2) (readNamesFromFile fs (args.getD (i + 1) "") names)
        else none
      else parseArgsLoop fs args (i + 1) names
termination_by i => args.length - i
decreasing_by
  all_goals omega

/-- Embedding of `ArgStatesAddPluginAction::ParseArgs`
(`src/lib/ArgStates.cpp:180`): run the argument loop from index 0 with an
empty `Names` vector. -/
def ParseArgs (fs : NamesFileSystem) (args : List String) : Option (List String) :=
  parseArgsLoop fs args 0 []

/-- Classification of the right-hand side of an assignment, classified the
same way as a call argument: a literal (with its text) or dynamic. -/
inductive RhsKind where
  | litRhs (text : String)
  | dynRhs
deriving DecidableEq, Repr

/-- Modelled from the spec: a `VariableAssignment` found while scanning an
enclosing function body (`FirstPass`/`SecondPass` implementations are only
declared in the project header, not present under the repository sources).
Attributes per the data model: assigned variable, source location (used
only for the precedes-the-call ordering) and classified right-hand side. -/
structure Assignment where
  var : String
  loc : Nat
  rhs : RhsKind
deriving DecidableEq, Repr

/-- Modelled from the spec: the tagged `ArgumentValueState` variant —
`ConcreteLiteral(textual value)`, `Reference(variable, enclosing function,
call location)` pending pass-2 resolution, or the `Dynamic` sentinel. -/
inductive ArgValueState where
  | concreteLiteral (text : String)
  | reference (varName : String) (enclosingFn : String) (callLoc : Nat)
  | dynamic
deriving DecidableEq, Repr

/-- The `Reference` discriminator. -/
def ArgValueState.isReference : ArgValueState → Bool
  | .reference _ _ _ => true
  | _ => false

/-- Modelled from the spec (section 4.2, step 3): the assignments to the
referenced variable whose location lexically precedes the call, in program
order (the body list is in program order and `filter` preserves it). -/
def qualifyingAssignments (body : List Assignment) (varName : String)
    (callLoc : Nat) : List Assignment :=
  body.filter (fun a => a.var == varName && decide (a.loc < callLoc))

/-- Modelled from the spec (section 4.1 and 4.2 step 4): classification of
an assignment right-hand side into an argument value state. -/
def classifyRhs : RhsKind → ArgValueState
  | .litRhs t => .concreteLiteral t
  | .dynRhs => .dynamic

/-- Modelled from the spec (section 4.2): resolve a `Reference`
placeholder against the enclosing function body.  No qualifying
assignment at all resolves to `Dynamic` (never to an empty set); a
non-literal right-hand side anywhere in the qualifying set forces the
whole reference to `Dynamic`; otherwise one `ConcreteLiteral` per
qualifying assignment, in program order. -/
def resolveReference (body : List Assignment) (varName : String)
    (callLoc : Nat) : List ArgValueState :=
  let qual := qualifyingAssignments body varName callLoc
  if qual.isEmpty then [.dynamic]
  else if qual.any (fun a => a.rhs == .dynRhs) then [.dynamic]
  else qual.map (fun a => classifyRhs a.rhs)

/-- Modelled from the spec: pass-2 resolution of one pass-1 value state.
`env` maps an enclosing-function identifier to that function body's
assignment list; non-`Reference` states pass through unchanged. -/
def resolveState (env : String → List Assignment) :
    ArgValueState → List ArgValueState
  | .reference v fn loc => resolveReference (env fn) v loc
  | s => [s]

/-- Modelled from the spec: Pass 2 over all collected value states — every
`Reference` placeholder is replaced by its resolution results. -/
def pass2 (env : String → List Assignment) (states : List ArgValueState) :
    List ArgValueState :=
  states.foldr (fun s acc => resolveState env s ++ acc) []

/-- A (symbol name, parameter position) key of the argument state store. -/
abbrev StoreKey := String × Nat

/-- Modelled from the spec: the record held by the store for one
(symbol, position) key; keys missing from the association have the empty
record. -/
def getRecord : List (StoreKey × List String) → StoreKey → List String
  | [], _ => []
  | e :: rest, k => if e.1 = k then e.2 else getRecord rest k

/-- Update the record of one key, appending a fresh entry for a key not
yet present. -/
def setRecord : List (StoreKey × List String) →
    StoreKey → List String → List (StoreKey × List String)
  | [], k, rec => [(k, rec)]
  | e :: rest, k, rec => if e.1 = k then (k, rec) :: rest else e :: setRecord rest k rec

/-- Modelled from the spec (section 4.3): append a distinct value to a
record if not already present; a value already present is not
re-inserted. -/
def mergeValue (rec : List String) (v : String) : List String :=
  if v ∈ rec then rec else rec ++ [v]

/-- Modelled from the spec (section 4.3):
`merge(symbolName, parameterPosition, value)` on the whole store. -/
def storeMerge (store : List (StoreKey × List String)) (symbolName : String)
    (parameterPosition : Nat) (v : String) : List (StoreKey × List String) :=
  setRecord store (symbolName, parameterPosition)
    (mergeValue (getRecord store (symbolName, parameterPosition)) v)

/-- One observed argument value during a run: the target symbol, the
parameter position (call order) and the value's textual representation. -/
structure ObservedValue where
  sym : String
  pos : Nat
  value : String
deriving DecidableEq, Repr

/-- Modelled from the spec: the run's report — every observed value state
merged into the store, in observation order, starting from the empty
store. -/
def buildReport (events : List ObservedValue) : List (StoreKey × List String) :=
  events.foldl (fun st e => storeMerge st e.sym e.pos e.value) []

/-- The values observed for one (symbol, position) key, in observation
order. -/
def observedFor (events : List ObservedValue) (k : StoreKey) : List String :=
  (events.filter (fun e => (e.sym, e.pos) = k)).map (fun e => e.value)

/-- The first-seen-order duplicate-free sequence of a list: the first
occurrence of each value, in order of first appearance. -/
def firstSeen : List String → List String
  | [] => []
  | v :: vs => v :: firstSeen (vs.filter (fun w => w != v))
termination_by l => l.length
decreasing_by
  simp only [List.length_cons]
  exact Nat.lt_succ_of_le (List.length_filter_le _ _)

/-- Count of nodes matched by the INT matcher alone. -/
def intMatchCount (name : String) (root : Node) : Nat :=
  (nodesWithAncestors root).countP (fun p => matchesIntMatcher name p.1 p.2)

theorem messagesOf_nil (name : String) : messagesOf name [] = [] := rfl

theorem messagesOf_cons (name : String) (p : Node × List Node)
    (ps : List (Node × List Node)) :
    messagesOf name (p :: ps) = nodeMessages name p.1 p.2 ++ messagesOf name ps := rfl

theorem messagesOf_append (name : String) (ps qs : List (Node × List Node)) :
    messagesOf name (ps ++ qs) = messagesOf name ps ++ messagesOf name qs := by
  induction ps with
  | nil => simp [messagesOf]
  | cons p ps ih => simp [messagesOf_cons, ih, List.append_assoc]

theorem nodeMessages_length (name : String) (n : Node) (ancestors : List Node) :
    (nodeMessages name n ancestors).length =
      if matchedAny name n ancestors then 1 else 0 := by
  cases hb : isArgumentOfCall name ancestors <;>
    cases n <;>
      simp [nodeMessages, matchedAny, matchesRefMatcher, matchesIntMatcher,
        matchesStrMatcher, matchesChrMatcher, hb] <;>
    (try split <;> simp)

theorem messagesOf_length (name : String) (ps : List (Node × List Node)) :
    (messagesOf name ps).length = ps.countP (fun p => matchedAny name p.1 p.2) := by
  induction ps with
  | nil => simp [messagesOf]
  | cons p ps ih =>
      simp [messagesOf_cons, List.countP_cons, ih, nodeMessages_length]
      cases hm : matchedAny name p.1 p.2 <;> simp [hm]
      omega

theorem mem_mergeValue_self (rec : List String) (v : String) :
    v ∈ mergeValue rec v := by
  by_cases h : v ∈ rec <;> simp [mergeValue, h]

theorem mergeValue_eq_of_mem {rec : List String} {v : String} (h : v ∈ rec) :
    mergeValue rec v = rec := by
  simp [mergeValue, h]

theorem mergeValue_count_self {rec : List String} (v : String) (h : rec.Nodup) :
    (mergeValue rec v).count v = 1 := by
  by_cases hm : v ∈ rec
  · simp [mergeValue, hm]
    exact List.count_eq_one_of_mem h hm
  · simp [mergeValue, hm, List.count_append]
    exact List.count_eq_zero_of_not_mem hm

theorem mergeValue_nodup {rec : List String} (v : String) (h : rec.Nodup) :
    (mergeValue rec v).Nodup := by
  by_cases hm : v ∈ rec <;> simp [mergeValue, hm, List.nodup_append, h]

theorem getRecord_setRecord_self (store : List (StoreKey × List String))
    (k : StoreKey) (rec : List String) :
    getRecord (setRecord store k rec) k = rec := by
  induction store with
  | nil => simp [setRecord, getRecord]
  | cons e rest ih =>
      by_cases h : e.1 = k <;> simp [setRecord, getRecord, h, ih]

theorem getRecord_setRecord_ne (store : List (StoreKey × List String))
    {k k2 : StoreKey} (rec : List String) (h : k2 ≠ k) :
    getRecord (setRecord store k rec) k2 = getRecord store k2 := by
  have hne : k ≠ k2 := fun hh => h hh.symm
  induction store with
  | nil => simp [setRecord, getRecord, hne]
  | cons e rest ih =>
      by_cases he : e.1 = k
      · subst he
        simp [setRecord, getRecord, hne]
      · simp [setRecord, getRecord, he, ih]

theorem setRecord_setRecord_self (store : List (StoreKey × List String))
    (k : StoreKey) (rec1 rec2 : List String) :
    setRecord (setRecord store k rec1) k rec2 = setRecord store k rec2 := by
  induction store with
  | nil => simp [setRecord]
  | cons e rest ih =>
      by_cases h : e.1 = k <;> simp [setRecord, h, ih]

theorem getRecord_storeMerge (store : List (StoreKey × List String))
    (sym : String) (pos : Nat) (v : String) (k : StoreKey) :
    getRecord (storeMerge store sym pos v) k =
      if k = (sym, pos) then mergeValue (getRecord store (sym, pos)) v
      else getRecord store k := by
  by_cases h : k = (sym, pos)
  · subst h
    simp [storeMerge, getRecord_setRecord_self]
  · simp [storeMerge, h, getRecord_setRecord_ne _ _ h]

theorem foldl_mergeValue_eq (values : List String) :
    ∀ acc : List String,
      values.foldl mergeValue acc =
        acc ++ firstSeen (values.filter (fun v => decide (v ∉ acc))) := by
  induction values with
  | nil => intro acc; simp [firstSeen]
  | cons v vs ih =>
      intro acc
      by_cases hv : v ∈ acc
      · simp only [List.foldl_cons, mergeValue_eq_of_mem hv]
        rw [ih acc]
        have hfv : (v :: vs).filter (fun w => decide (w ∉ acc)) =
            vs.filter (fun w => decide (w ∉ acc)) := by
          simp [List.filter_cons, hv]
        rw [hfv]
      · have hmv : mergeValue acc v = acc ++ [v] := by simp [mergeValue, hv]
        simp only [List.foldl_cons]
        rw [hmv, ih (acc ++ [v]), List.append_assoc]
        have hfv : (v :: vs).filter (fun w => decide (w ∉ acc)) =
            v :: vs.filter (fun w => decide (w ∉ acc)) := by
          simp [List.filter_cons, hv]
        rw [hfv]
        have hfs : firstSeen (v :: vs.filter (fun w => decide (w ∉ acc))) =
            v :: firstSeen ((vs.filter (fun w => decide (w ∉ acc))).filter
              (fun w => w != v)) := by
          simp [firstSeen]
        rw [hfs]
        have hff : (vs.filter (fun w => decide (w ∉ acc))).filter (fun w => w != v) =
            vs.filter (fun w => decide (w ∉ acc ++ [v])) := by
          rw [List.filter_filter]
          apply List.filter_congr
          intro w hw
          simp [List.mem_append]
          have hbne : (w != v) = !decide (w = v) := by
            by_cases hcase : w = v <;> simp [hcase]
          rw [hbne, Bool.and_comm]
        rw [hff]
        rfl

theorem getRecord_foldl_storeMerge (events : List ObservedValue) :
    ∀ (st : List (StoreKey × List String)) (k : StoreKey),
      getRecord (events.foldl (fun s e => storeMerge s e.sym e.pos e.value) st) k =
        (observedFor events k).foldl mergeValue (getRecord st k) := by
  induction events with
  | nil => intro st k; simp [observedFor]
  | cons e rest ih =>
      intro st k
      simp only [List.foldl_cons]
      rw [ih]
      by_cases hk : (e.sym, e.pos) = k
      · have h1 : observedFor (e :: rest) k = e.value :: observedFor rest k := by
          simp [observedFor, List.filter_cons, hk]
        rw [h1, List.foldl_cons, getRecord_storeMerge, if_pos hk.symm, hk]
      · have h1 : observedFor (e :: rest) k = observedFor rest k := by
          simp [observedFor, List.filter_cons, hk]
        rw [h1, getRecord_storeMerge, if_neg (fun hh => hk hh.symm)]

/-- C10: the recursive child enumeration `getChildren` terminates for every
finite statement tree — it recurses only on the children of the given
statement (first conjunct: leaf nodes print their classification, inner
nodes only recurse into `children()`), and on every tree it returns a
result, printing exactly one message per childless node (second
conjunct). -/
theorem c10_getChildren_terminates_on_finite_trees (s : Node) :
    (getChildren s =
      if s.children.isEmpty then [leafMessage s] else getChildrenList s.children) ∧
      (getChildren s).length = leafCount s :=
  ⟨getChildren_children_eq s, getChildren_length_and_list.1 s⟩

/-- C1: claimed — the value emitted for an integer, string, or character
literal argument of a call to a target symbol is the literal's exact
source spelling.  False: for the call `f(0x10)` (an integer literal with
source text `0x10`, which clang parses to the value 16) the run prints
the normalized decimal value `16` from `IntegerLiteral::getValue()`, and
the spelling `0x10` appears nowhere in the output; likewise a character
literal spelled with the character `a` (code point 97) is printed as `97`
from `CharacterLiteral::getValue()`, not as its source spelling. -/
theorem c1_counterexample :
    decodeIntLiteral "0x10" = some 16 ∧
      runOutput "f" (.call (.declRef "f" .functionDecl) [.intLit "0x10" 16]) =
        ["REF> f", "INT> 16"] ∧
      "INT> 0x10" ∉ runOutput "f" (.call (.declRef "f" .functionDecl) [.intLit "0x10" 16]) ∧
      "INT> 16" ∈ runOutput "f" (.call (.declRef "f" .functionDecl) [.intLit "0x10" 16]) ∧
      runOutput "f" (.call (.declRef "f" .functionDecl) [.charLit "a" 97]) =
        ["REF> f", "CHR> 97"] ∧
      "CHR> a" ∉ runOutput "f" (.call (.declRef "f" .functionDecl) [.charLit "a" 97]) := by
  have hout : runOutput "f" (.call (.declRef "f" .functionDecl) [.intLit "0x10" 16]) =
      ["REF> f", "INT> 16"] := by
    simp only [runOutput, messagesOf, nodesWithAncestors, visit, visitList, nodeMessages,
      matchesRefMatcher, matchesIntMatcher, matchesStrMatcher, matchesChrMatcher,
      isArgumentOfCall, calleeIsTarget, isDeclaratorDecl, refMessage, intMessage]
    decide
  have hchr : runOutput "f" (.call (.declRef "f" .functionDecl) [.charLit "a" 97]) =
      ["REF> f", "CHR> 97"] := by
    simp only [runOutput, messagesOf, nodesWithAncestors, visit, visitList, nodeMessages,
      matchesRefMatcher, matchesIntMatcher, matchesStrMatcher, matchesChrMatcher,
      isArgumentOfCall, calleeIsTarget, isDeclaratorDecl, refMessage, chrMessage]
    decide
  refine ⟨by decide, hout, ?_, ?_, hchr, ?_⟩
  · rw [hout]; decide
  · rw [hout]; decide
  · rw [hchr]; decide

/-- C1 (amended): the value emitted for an integer or character literal
argument of a call to the target symbol is the literal's parsed numeric
value rendered in decimal (what `IntegerLiteral::getValue()` resp.
`CharacterLiteral::getValue()` holds), not its source spelling: for both
literal kinds the output is identical for any two spellings of the same
value. -/
theorem c1_amended_literal_value_normalized (name t1 t2 : String) (v : Nat) :
    (runOutput name (.call (.declRef name .functionDecl) [.intLit t1 v]) =
        ["REF> " ++ name, "INT> " ++ toString v] ∧
      runOutput name (.call (.declRef name .functionDecl) [.intLit t1 v]) =
        runOutput name (.call (.declRef name .functionDecl) [.intLit t2 v])) ∧
      (runOutput name (.call (.declRef name .functionDecl) [.charLit t1 v]) =
          ["REF> " ++ name, "CHR> " ++ toString v] ∧
        runOutput name (.call (.declRef name .functionDecl) [.charLit t1 v]) =
          runOutput name (.call (.declRef name .functionDecl) [.charLit t2 v])) := by
  have hint : ∀ t : String,
      runOutput name (.call (.declRef name .functionDecl) [.intLit t v]) =
        ["REF> " ++ name, "INT> " ++ toString v] := by
    intro t
    simp [runOutput, messagesOf, nodesWithAncestors, visit, visitList, nodeMessages,
      matchesRefMatcher, matchesIntMatcher, matchesStrMatcher, matchesChrMatcher,
      isArgumentOfCall, calleeIsTarget, isDeclaratorDecl, refMessage, intMessage]
  have hchr : ∀ t : String,
      runOutput name (.call (.declRef name .functionDecl) [.charLit t v]) =
        ["REF> " ++ name, "CHR> " ++ toString v] := by
    intro t
    simp [runOutput, messagesOf, nodesWithAncestors, visit, visitList, nodeMessages,
      matchesRefMatcher, matchesIntMatcher, matchesStrMatcher, matchesChrMatcher,
      isArgumentOfCall, calleeIsTarget, isDeclaratorDecl, refMessage, chrMessage]
  exact ⟨⟨hint t1, (hint t1).trans (hint t2).symm⟩,
    ⟨hchr t1, (hchr t1).trans (hchr t2).symm⟩⟩

/-- C2: claimed — the declaration-reference matcher never reports the
callee's own name as an argument reference.  False: in the call `f(1)`
with target symbol `f`, the callee's own `DeclRefExpr` (whose ancestor is
the call itself) satisfies the REF matcher — a `FunctionDecl` is a
`DeclaratorDecl` and `hasAncestor` accepts the enclosing call — and the
run reports `REF> f`. -/
theorem c2_counterexample :
    matchesRefMatcher "f" (.declRef "f" .functionDecl)
      [.call (.declRef "f" .functionDecl) [.intLit "1" 1]] = true ∧
      runOutput "f" (.call (.declRef "f" .functionDecl) [.intLit "1" 1]) =
        ["REF> f", "INT> 1"] := by
  constructor
  · decide
  · simp only [runOutput, messagesOf, nodesWithAncestors, visit, visitList, nodeMessages,
      matchesRefMatcher, matchesIntMatcher, matchesStrMatcher, matchesChrMatcher,
      isArgumentOfCall, calleeIsTarget, isDeclaratorDecl, refMessage, intMessage]
    decide

/-- C2 (amended): the REF matcher matches every `DeclRefExpr` to a
`DeclaratorDecl` that has an ancestor call to the target symbol — the
callee's own reference included, since `FunctionDecl` is a
`DeclaratorDecl` and the callee reference is a descendant of its call;
hence every call to the target reports `REF> <target name>`. -/
theorem c2_amended_callee_reference_reported (name : String) (args : List Node) :
    matchesRefMatcher name (.declRef name .functionDecl)
      [.call (.declRef name .functionDecl) args] = true ∧
      ("REF> " ++ name) ∈ runOutput name (.call (.declRef name .functionDecl) args) := by
  constructor
  · simp [matchesRefMatcher, isDeclaratorDecl, isArgumentOfCall, calleeIsTarget]
  · simp [runOutput, nodesWithAncestors, visit, visitList, messagesOf_cons,
      messagesOf_append, messagesOf_nil, nodeMessages, matchesRefMatcher,
      matchesIntMatcher, matchesStrMatcher, matchesChrMatcher, isArgumentOfCall,
      calleeIsTarget, isDeclaratorDecl, refMessage]

/-- C3: claimed — an argument that is itself a nested call is classified
`Dynamic`, and no literal or reference inside the nested call is reported
for the outer call.  False: for `f(g(5))` with target symbol `f`, the run
reports the literal `5` and the reference `g` from inside the nested call
(the `hasAncestor` constraint sees through any nesting depth), and no
`Dynamic` classification exists in this pass at all. -/
theorem c3_counterexample :
    runOutput "f" (.call (.declRef "f" .functionDecl)
        [.call (.declRef "g" .functionDecl) [.intLit "5" 5]]) =
      ["REF> f", "REF> g", "INT> 5"] ∧
      "INT> 5" ∈ runOutput "f" (.call (.declRef "f" .functionDecl)
        [.call (.declRef "g" .functionDecl) [.intLit "5" 5]]) ∧
      "REF> g" ∈ runOutput "f" (.call (.declRef "f" .functionDecl)
        [.call (.declRef "g" .functionDecl) [.intLit "5" 5]]) := by
  have hout : runOutput "f" (.call (.declRef "f" .functionDecl)
      [.call (.declRef "g" .functionDecl) [.intLit "5" 5]]) =
      ["REF> f", "REF> g", "INT> 5"] := by
    simp only [runOutput, messagesOf, nodesWithAncestors, visit, visitList, nodeMessages,
      matchesRefMatcher, matchesIntMatcher, matchesStrMatcher, matchesChrMatcher,
      isArgumentOfCall, calleeIsTarget, isDeclaratorDecl, refMessage, intMessage]
    decide
  refine ⟨hout, ?_, ?_⟩
  · rw [hout]; decide
  · rw [hout]; decide

/-- C3 (amended): literals and references inside a nested call argument
are matched and reported for the outer call to the target symbol —
`hasAncestor` is satisfied through any nesting depth — for every target
name, inner callee name and literal value. -/
theorem c3_amended_nested_call_contents_reported (name g t : String) (v : Nat) :
    runOutput name (.call (.declRef name .functionDecl)
        [.call (.declRef g .functionDecl) [.intLit t v]]) =
      ["REF> " ++ name, "REF> " ++ g, "INT> " ++ toString v] ∧
      ("INT> " ++ toString v) ∈ runOutput name (.call (.declRef name .functionDecl)
        [.call (.declRef g .functionDecl) [.intLit t v]]) := by
  have hout : runOutput name (.call (.declRef name .functionDecl)
      [.call (.declRef g .functionDecl) [.intLit t v]]) =
      ["REF> " ++ name, "REF> " ++ g, "INT> " ++ toString v] := by
    simp [runOutput, messagesOf, nodesWithAncestors, visit, visitList, nodeMessages,
      matchesRefMatcher, matchesIntMatcher, matchesStrMatcher, matchesChrMatcher,
      isArgumentOfCall, calleeIsTarget, isDeclaratorDecl, refMessage, intMessage]
  refine ⟨hout, ?_⟩
  rw [hout]
  simp

/-- C6: claimed — the number of value states extracted for a call site
equals the call's syntactic argument count.  False: the call `f(1 + 2)`
has one syntactic argument, yet the run reports three matched nodes
(`REF> f`, `INT> 1`, `INT> 2`); even counting only integer-literal
matches there are two states for one argument. -/
theorem c6_counterexample :
    argCountOfCall (.call (.declRef "f" .functionDecl)
        [.binOp (.intLit "1" 1) (.intLit "2" 2)]) = some 1 ∧
      runOutput "f" (.call (.declRef "f" .functionDecl)
        [.binOp (.intLit "1" 1) (.intLit "2" 2)]) = ["REF> f", "INT> 1", "INT> 2"] ∧
      matchCount "f" (.call (.declRef "f" .functionDecl)
        [.binOp (.intLit "1" 1) (.intLit "2" 2)]) = 3 ∧
      intMatchCount "f" (.call (.declRef "f" .functionDecl)
        [.binOp (.intLit "1" 1) (.intLit "2" 2)]) = 2 ∧
      matchCount "f" (.call (.declRef "f" .functionDecl)
        [.binOp (.intLit "1" 1) (.intLit "2" 2)]) ≠ 1 ∧
      intMatchCount "f" (.call (.declRef "f" .functionDecl)
        [.binOp (.intLit "1" 1) (.intLit "2" 2)]) ≠ 1 := by
  have hmc : matchCount "f" (.call (.declRef "f" .functionDecl)
      [.binOp (.intLit "1" 1) (.intLit "2" 2)]) = 3 := by
    simp only [matchCount, nodesWithAncestors, visit, visitList]
    decide
  have himc : intMatchCount "f" (.call (.declRef "f" .functionDecl)
      [.binOp (.intLit "1" 1) (.intLit "2" 2)]) = 2 := by
    simp only [intMatchCount, nodesWithAncestors, visit, visitList]
    decide
  refine ⟨by decide, ?_, hmc, himc, by rw [hmc]; decide, by rw [himc]; decide⟩
  simp only [runOutput, messagesOf, nodesWithAncestors, visit, visitList, nodeMessages,
    matchesRefMatcher, matchesIntMatcher, matchesStrMatcher, matchesChrMatcher,
    isArgumentOfCall, calleeIsTarget, isDeclaratorDecl, refMessage, intMessage]
  decide

/-- C6 (amended): the number of value states the run emits for a
translation unit equals the number of nodes matched by the registered
matchers — literal and declarator-reference nodes with an ancestor call
to the target, the callee reference included — which is not in general
the syntactic argument count of any call. -/
theorem c6_amended_output_length_is_match_count (name : String) (root : Node) :
    (runOutput name root).length = matchCount name root := by
  simp [runOutput, matchCount, messagesOf_length]

/-- C5: claimed — an empty target-symbol list or a missing/unreadable
symbol-list file makes the run fail fatally before analysis starts.
False: `ParseArgs` succeeds (returns `true`) both with no plugin
arguments at all and with a `-names-file` naming a file that cannot be
opened; in both cases the `Names` vector stays empty and the analysis
proceeds with zero target symbols. -/
theorem c5_counterexample :
    ParseArgs [] [] = some [] ∧
      ParseArgs [] ["-names-file", "missing.txt"] = some [] := by
  constructor
  · simp [ParseArgs, parseArgsLoop]
  · simp [ParseArgs, parseArgsLoop, parseArg, readNamesFromFile, lookupFile]

/-- C5 (amended): `ParseArgs` fails (returning `false` after reporting the
`missing -names-file` diagnostic) only when a `-names-file` flag is not
followed by a further, nonempty argument; an absent or unreadable names
file is silently ignored, an empty argument list is accepted, and in both
cases the run continues with zero target symbols. -/
theorem c5_amended_only_flag_misuse_is_fatal :
    (∀ fs : NamesFileSystem, ParseArgs fs [] = some []) ∧
      (∀ (fs : NamesFileSystem) (fname : String), fname ≠ "" →
        lookupFile fs fname = none → ParseArgs fs ["-names-file", fname] = some []) ∧
      (∀ fs : NamesFileSystem, ParseArgs fs ["-names-file"] = none) ∧
      (∀ (fs : NamesFileSystem) (rest : List String),
        ParseArgs fs ("-names-file" :: "" :: rest) = none) := by
  refine ⟨?_, ?_, ?_, ?_⟩
  · intro fs
    simp [ParseArgs, parseArgsLoop]
  · intro fs fname hne hlookup
    simp [ParseArgs, parseArgsLoop, parseArg, readNamesFromFile, hlookup, hne]
  · intro fs
    simp [ParseArgs, parseArgsLoop, parseArg]
  · intro fs rest
    simp [ParseArgs, parseArgsLoop, parseArg]

/-- C5 (witness): the amended theorem applied at a concrete file system
that does not contain the requested names file. -/
theorem c5_witness :
    ParseArgs [("a.txt", ["foo"])] ["-names-file", "b.txt"] = some [] :=
  c5_amended_only_flag_misuse_is_fatal.2.1 [("a.txt", ["foo"])] "b.txt"
    (by decide) (by decide)

/-- C4: after Pass 2, every argument value state is `ConcreteLiteral` or
`Dynamic`; no `Reference` placeholder remains (spec-modelled: the pass-2
implementation is declared in the project header but absent from the
repository sources, so it is modelled from the specification). -/
theorem c4_no_reference_survives_pass2 (env : String → List Assignment)
    (states : List ArgValueState) :
    ∀ s ∈ pass2 env states, s.isReference = false := by
  induction states with
  | nil => intro s hs; simp [pass2] at hs
  | cons st rest ih =>
      intro s hs
      simp only [pass2, List.foldr_cons] at hs
      rw [List.mem_append] at hs
      rcases hs with hs | hs
      · cases st with
        | reference v fn loc =>
            simp only [resolveState, resolveReference] at hs
            split at hs
            · simp_all [ArgValueState.isReference]
            · split at hs
              · simp_all [ArgValueState.isReference]
              · rw [List.mem_map] at hs
                obtain ⟨a, _, ha⟩ := hs
                rw [← ha]
                cases a.rhs <;> simp [classifyRhs, ArgValueState.isReference]
        | concreteLiteral t =>
            simp only [resolveState] at hs
            simp_all [ArgValueState.isReference]
        | dynamic =>
            simp only [resolveState] at hs
            simp_all [ArgValueState.isReference]
      · exact ih s hs

/-- C4 (witness): a run whose pass-1 states contain one `Reference`
placeholder; pass 2 resolves it and the resulting state is not a
`Reference`. -/
theorem c4_witness :
    ArgValueState.dynamic ∈
      pass2 (fun _ => []) [ArgValueState.reference "x" "main" 3] ∧
      ArgValueState.dynamic.isReference = false :=
  ⟨by decide, c4_no_reference_survives_pass2 (fun _ => [])
    [ArgValueState.reference "x" "main" 3] ArgValueState.dynamic (by decide)⟩

/-- C7: a `Reference` whose variable has no qualifying assignment (none
lexically preceding the call in the enclosing function) resolves to
`Dynamic`, never to an empty value set — and resolution never returns an
empty set in any case (spec-modelled: the pass-2 implementation is
declared in the project header but absent from the repository sources, so
it is modelled from the specification). -/
theorem c7_no_assignment_resolves_to_dynamic (body : List Assignment)
    (varName : String) (callLoc : Nat) :
    resolveReference body varName callLoc ≠ [] ∧
      (qualifyingAssignments body varName callLoc = [] →
        resolveReference body varName callLoc = [ArgValueState.dynamic]) := by
  constructor
  · simp only [resolveReference]
    split
    · simp
    · split
      · simp
      · rename_i hq _
        simp only [ne_eq, List.map_eq_nil_iff]
        intro hnil
        rw [hnil] at hq
        simp at hq
  · intro hq
    simp [resolveReference, hq]

/-- C7 (witness): the theorem applied to a body whose only assignment is
to a different variable, so no qualifying assignment exists for `x`. -/
theorem c7_witness :
    resolveReference [⟨"y", 9, RhsKind.litRhs "1"⟩] "x" 5 ≠ [] ∧
      resolveReference [⟨"y", 9, RhsKind.litRhs "1"⟩] "x" 5 = [ArgValueState.dynamic] :=
  ⟨(c7_no_assignment_resolves_to_dynamic [⟨"y", 9, RhsKind.litRhs "1"⟩] "x" 5).1,
    (c7_no_assignment_resolves_to_dynamic [⟨"y", 9, RhsKind.litRhs "1"⟩] "x" 5).2
      (by decide)⟩

/-- C8: the store's merge is idempotent on identical input — merging the
same value twice for the same (symbol name, parameter position) pair
leaves the store exactly as after the first merge, and the record for
that pair then holds exactly one entry for the value (spec-modelled: the
argument-state store is declared in the project header but its
implementation is absent from the repository sources, so it is modelled
from the specification). -/
theorem c8_store_merge_idempotent (store : List (StoreKey × List String))
    (symbolName : String) (parameterPosition : Nat) (v : String) :
    storeMerge (storeMerge store symbolName parameterPosition v)
        symbolName parameterPosition v =
      storeMerge store symbolName parameterPosition v ∧
      ((getRecord store (symbolName, parameterPosition)).Nodup →
        (getRecord (storeMerge store symbolName parameterPosition v)
            (symbolName, parameterPosition)).count v = 1 ∧
          (getRecord (storeMerge store symbolName parameterPosition v)
            (symbolName, parameterPosition)).Nodup) := by
  constructor
  · simp only [storeMerge]
    rw [getRecord_setRecord_self,
      mergeValue_eq_of_mem (mem_mergeValue_self _ v), setRecord_setRecord_self]
  · intro hnodup
    have hga : getRecord (storeMerge store symbolName parameterPosition v)
        (symbolName, parameterPosition) =
        mergeValue (getRecord store (symbolName, parameterPosition)) v := by
      simp [storeMerge, getRecord_setRecord_self]
    rw [hga]
    exact ⟨mergeValue_count_self v hnodup, mergeValue_nodup v hnodup⟩

/-- C8 (witness): merging the value `1` twice for `("f", 0)` into the
empty store — the store is unchanged by the second merge and the record
holds exactly one entry. -/
theorem c8_witness :
    storeMerge (storeMerge [] "f" 0 "1") "f" 0 "1" = storeMerge [] "f" 0 "1" ∧
      (getRecord (storeMerge [] "f" 0 "1") ("f", 0)).count "1" = 1 :=
  ⟨(c8_store_merge_idempotent [] "f" 0 "1").1,
    ((c8_store_merge_idempotent [] "f" 0 "1").2 (by decide)).1⟩

/-- C9: for every (symbol name, parameter position) key, the record in
the final report lists the observed value states in first-seen order with
later duplicates dropped; and the report is a pure function of the
observation stream, so re-running the analysis on the same unchanged
input produces the identical ordered report (spec-modelled: the
argument-state store is declared in the project header but its
implementation is absent from the repository sources, so it is modelled
from the specification). -/
theorem c9_first_seen_order_and_determinism (events : List ObservedValue)
    (k : StoreKey) :
    getRecord (buildReport events) k = firstSeen (observedFor events k) ∧
      buildReport events = buildReport events := by
  refine ⟨?_, rfl⟩
  simp only [buildReport]
  rw [getRecord_foldl_storeMerge]
  have hnil : getRecord [] k = [] := rfl
  rw [hnil, foldl_mergeValue_eq]
  simp
